import Mathlib

/-!
Verification of the task-management plugin (`src/main.py`).

The Python module stores two JSON collections (tasks and point balances)
and exposes chat commands that create, claim, submit and review tasks and
query a points leaderboard.  Below is a shallow embedding of the pure
computational content of that module: Python strings are modelled as
`List Char`, JSON records as Lean structures (an `Option` field models a
possibly-absent or null key), and every command handler becomes a pure
function from the loaded collections to the updated collections together
with a result describing which reply the handler yields.
-/

set_option linter.unusedVariables false

namespace TaskSys

/-- Python strings modelled as lists of characters. -/
abbrev PyStr := List Char

/-- Python `int(s)` on a string of decimal digits:
left fold accumulating `acc * 10 + digit`. -/
def strToNat (s : PyStr) : Nat :=
  s.foldl (fun a c => a * 10 + (c.toNat - 48)) 0

/-- The character for the decimal digit `d` (`d < 10`). -/
def digitChar (d : Nat) : Char := Char.ofNat (48 + d)

/-- Decimal rendering of a natural number, fuelled (by an explicit
recursor, so that it evaluates inside the kernel); the fuel used below
is always sufficient. -/
def natToDigitsAux (fuel : Nat) : Nat → PyStr :=
  Nat.rec (motive := fun _ => Nat → PyStr) (fun _ => [])
    (fun _ ih n =>
      if n < 10 then [digitChar n]
      else ih (n / 10) ++ [digitChar (n % 10)])
    fuel

/-- Python `str(n)` for a natural number `n`. -/
def natToDigits (n : Nat) : PyStr := natToDigitsAux (n + 1) n

/-- Python `f"{n:0wd}"`: decimal rendering left-padded with zeros to
width `w` (never truncates). -/
def padNum (w n : Nat) : PyStr :=
  List.replicate (w - (natToDigits n).length) '0' ++ natToDigits n

/-- A task record as created by `create_task` and stored in `tasks.json`
(post-migration shape: all keys present, claimant fields null until the
task is claimed). -/
structure Task where
  task_id : PyStr
  publisher_id : String
  publisher_name : String
  content : String
  publish_time : String
  status : String
  accepted_by_id : Option String
  accepted_by_name : Option String
deriving DecidableEq

/-- The caller identity delivered by `_get_user_info`. -/
structure User where
  id : String
  name : String
deriving DecidableEq

/-- `admin_list`: the configured admin ids (`ADMIN_IDS` split on commas). -/
def admin_list : List String := ["2195556927"]

/-- `TASK_PERMISSION_MODE`: 0 = anyone may publish, 1 = admins only. -/
def TASK_PERMISSION_MODE : Nat := 0

/-- `datetime.now().strftime("%m%d")` for a date with month `m`, day `d`:
two zero-padded two-digit fields. -/
def date_str (m d : Nat) : PyStr := padNum 2 m ++ padNum 2 d

/-- The filter in `_generate_task_id`: the task id starts with today's
`MMDD`, is 7 characters long, and its suffix (characters 4..) is all
decimal digits. -/
def sameDayShape (ds : PyStr) (t : Task) : Bool :=
  ds.isPrefixOf t.task_id && t.task_id.length == 7 &&
    (t.task_id.drop 4).all Char.isDigit

/-- `max((int(t["task_id"][4:]) for t in same_day_tasks), default=0)`. -/
def max_serial (ds : PyStr) (tasks : List Task) : Nat :=
  ((tasks.filter (sameDayShape ds)).map
    (fun t => strToNat (t.task_id.drop 4))).foldl max 0

/-- `_generate_task_id`: today's `MMDD` followed by the maximal same-day
serial plus one, zero-padded to three digits. -/
def generate_task_id (m d : Nat) (tasks : List Task) : PyStr :=
  date_str m d ++ padNum 3 (max_serial (date_str m d) tasks + 1)

/-- `_validate_task_id`: 7 characters, all digits, `int(s[:2]) ∈ [1,12]`,
`int(s[2:4]) ∈ [1,31]`. -/
def validate_task_id (s : PyStr) : Bool :=
  (s.length == 7) && s.all Char.isDigit &&
    decide (1 ≤ strToNat (s.take 2)) && decide (strToNat (s.take 2) ≤ 12) &&
    decide (1 ≤ strToNat ((s.drop 2).take 2)) &&
    decide (strToNat ((s.drop 2).take 2) ≤ 31)

/-- Outcome of `create_task` ("发布任务"): either the admin-only rejection
("❌ 仅管理员可发布任务") or success announcing the new id. -/
inductive CreateResult where
  | forbidden
  | ok (task_id : PyStr)
deriving DecidableEq

/-- Outcome of `accept_task` ("接受任务"): the malformed-id rejection
("❌ 任务ID格式应为7位数字（例：0715001）"), success ("✅ 已接受任务"),
or the generic rejection ("❌ 任务不可接受"). -/
inductive ClaimResult where
  | invalidFormat
  | ok
  | notClaimable
deriving DecidableEq

/-- Outcome of `user_complete` ("完成任务"): the malformed-id rejection
("❌ 无效的任务ID格式"), the claimant-mismatch rejection ("❌ 这不是你的任务"),
success ("📢 任务完成待审核"), or the no-matching-task rejection
("❌ 无效任务ID"). -/
inductive SubmitResult where
  | invalidFormat
  | notYourTask
  | ok
  | invalidTask
deriving DecidableEq

/-- Outcome of `review_task` ("审核任务"): the malformed-id rejection
("❌ 无效的任务ID格式"), the admin-permission rejection ("⛔ 需要管理员权限"),
the no-matching-task rejection ("❌ 无效的任务ID"), or success reporting
the claimant's updated point total. -/
inductive ReviewResult where
  | invalidFormat
  | needAdmin
  | invalidTask
  | ok (total : Nat)
deriving DecidableEq

/-- `create_task`: permission check, then append a fresh `pending` task
whose id comes from `_generate_task_id`. -/
def create_task (u : User) (content : String) (m d : Nat) (time : String)
    (tasks : List Task) : List Task × CreateResult :=
  if TASK_PERMISSION_MODE = 1 ∧ u.id ∉ admin_list then
    (tasks, .forbidden)
  else
    let tid := generate_task_id m d tasks
    (tasks ++ [{ task_id := tid, publisher_id := u.id,
                 publisher_name := u.name, content := content,
                 publish_time := time, status := "pending",
                 accepted_by_id := none, accepted_by_name := none }],
     .ok tid)

/-- The `for` loop of `accept_task`: the first task matching
`task_id == tid and status == "pending"` is claimed; if none matches the
loop falls through to the generic rejection. -/
def acceptLoop (u : User) (tid : PyStr) : List Task → List Task × ClaimResult
  | [] => ([], .notClaimable)
  | t :: ts =>
    if t.task_id = tid ∧ t.status = "pending" then
      ({ t with status := "accepted", accepted_by_id := some u.id,
                accepted_by_name := some u.name } :: ts, .ok)
    else
      let r := acceptLoop u tid ts
      (t :: r.1, r.2)

/-- `accept_task` ("接受任务"): shape validation, then the claim loop. -/
def accept_task (u : User) (tid : PyStr) (tasks : List Task) :
    List Task × ClaimResult :=
  if validate_task_id tid then acceptLoop u tid tasks
  else (tasks, .invalidFormat)

/-- The `for` loop of `user_complete`: the first task matching
`task_id == tid and status == "accepted"` is submitted if the caller is
its claimant; a claimant mismatch rejects without touching the store. -/
def completeLoop (u : User) (tid : PyStr) : List Task → List Task × SubmitResult
  | [] => ([], .invalidTask)
  | t :: ts =>
    if t.task_id = tid ∧ t.status = "accepted" then
      if t.accepted_by_id ≠ some u.id then (t :: ts, .notYourTask)
      else ({ t with status := "pending_review" } :: ts, .ok)
    else
      let r := completeLoop u tid ts
      (t :: r.1, r.2)

/-- `user_complete` ("完成任务"): shape validation, then the submit loop. -/
def user_complete (u : User) (tid : PyStr) (tasks : List Task) :
    List Task × SubmitResult :=
  if validate_task_id tid then completeLoop u tid tasks
  else (tasks, .invalidFormat)

/-- A point-balance record stored in `points.json`.  `user_id` and `name`
are copied from a task's claimant fields, which may be null. -/
structure PointRec where
  user_id : Option String
  name : Option String
  points : Nat
deriving DecidableEq

/-- `next((t for t in tasks if t["task_id"] == task_id and
t["status"] == "pending_review"), None)` together with the in-place
mutation `target_task["status"] = "completed"`: returns the matched task
(pre-mutation) and the task list with that task completed. -/
def reviewFind (tid : PyStr) : List Task → Option (Task × List Task)
  | [] => none
  | t :: ts =>
    if t.task_id = tid ∧ t.status = "pending_review" then
      some (t, { t with status := "completed" } :: ts)
    else
      match reviewFind tid ts with
      | none => none
      | some (f, ts1) => some (f, t :: ts1)

/-- The points update of `review_task`: find the balance record by
`user_id`; if absent append a fresh record with `points = 0`; then add 1.
Returns the updated collection and the reported new total. -/
def creditLoop (cid : Option String) (cname : Option String) :
    List PointRec → List PointRec × Nat
  | [] =>
    let np : PointRec := { user_id := cid, name := cname, points := 0 }
    ([{ np with points := np.points + 1 }], np.points + 1)
  | p :: ps =>
    if p.user_id = cid then
      ({ p with points := p.points + 1 } :: ps, p.points + 1)
    else
      let r := creditLoop cid cname ps
      (p :: r.1, r.2)

/-- `review_task` ("审核任务"): shape validation, admin check, find the
`pending_review` task, complete it and credit its claimant one point. -/
def review_task (u : User) (tid : PyStr) (tasks : List Task)
    (points : List PointRec) : List Task × List PointRec × ReviewResult :=
  if validate_task_id tid then
    if u.id ∈ admin_list then
      match reviewFind tid tasks with
      | none => (tasks, points, .invalidTask)
      | some (target, tasks1) =>
        let r := creditLoop target.accepted_by_id target.accepted_by_name points
        (tasks1, r.1, .ok r.2)
    else (tasks, points, .needAdmin)
  else (tasks, points, .invalidFormat)

/-- A raw task record as read from `tasks.json` before migration.  A
field of type `Option (Option String)` models a key that may be absent
(`none`) or present with a possibly-null value (`some v`). -/
structure RawTask where
  task_id : PyStr
  publisher_id : String
  publisher_name : Option String
  content : String
  status : String
  accepted_by : Option (Option String)
  accepted_by_id : Option (Option String)
  accepted_by_name : Option (Option String)
deriving DecidableEq

/-- The body of the `for` loop of `migrate_old_data` applied to one
record: split a legacy `accepted_by` key into `accepted_by_id` plus a
placeholder `accepted_by_name`, and backfill a missing `publisher_name`.
The boolean mirrors the `updated` flag contribution of this record. -/
def migrateRecord (t : RawTask) : RawTask × Bool :=
  let p :=
    if t.accepted_by.isSome = true ∧ t.accepted_by_id = none then
      ({ t with accepted_by_id := t.accepted_by,
                accepted_by_name := some (some "历史用户"),
                accepted_by := none }, true)
    else (t, false)
  if p.1.publisher_name = none then
    ({ p.1 with publisher_name := some "历史发布者" }, true)
  else p

/-- `migrate_old_data`: migrate every record; the flag records whether
any record changed (in which case the collection is re-saved). -/
def migrate_old_data (tasks : List RawTask) : List RawTask × Bool :=
  (tasks.map (fun t => (migrateRecord t).1),
   tasks.any (fun t => (migrateRecord t).2))

/-- Insertion step of a stable descending sort by the key `k`: the new
element is placed before the first element whose key is not larger,
so that elements with equal keys keep their original relative order
(the behaviour of Python's stable `sorted(..., reverse=True)`). -/
def insertByDesc (k : α → Nat) (x : α) : List α → List α
  | [] => [x]
  | y :: ys =>
    if k x < k y then y :: insertByDesc k x ys
    else x :: y :: ys

/-- Stable descending sort by the key `k`, modelling
`sorted(data, key=..., reverse=True)`. -/
def sortByDesc (k : α → Nat) : List α → List α
  | [] => []
  | x :: xs => insertByDesc k x (sortByDesc k xs)

/-- `points_rank` ("积分榜"): balances sorted by points descending
(stable), truncated to the top 10. -/
def points_rank (points : List PointRec) : List PointRec :=
  (sortByDesc (fun p => p.points) points).take 10

/-- Pair each element of a list with its position, starting at `i`. -/
def enumIdx (i : Nat) : List α → List (Nat × α)
  | [] => []
  | x :: xs => (i, x) :: enumIdx (i + 1) xs

/-- One user-visible mutating command, with the caller identity and
arguments it carries (`m`, `d`, `time` stand for the wall clock read by
`create_task`). -/
inductive Op where
  | createOp (u : User) (content : String) (m d : Nat) (time : String)
  | claimOp (u : User) (tid : PyStr)
  | submitOp (u : User) (tid : PyStr)
  | reviewOp (u : User) (tid : PyStr)

/-- The two persisted collections. -/
structure SysState where
  tasks : List Task
  points : List PointRec

/-- Run one command against the stored collections. -/
def applyOp (s : SysState) : Op → SysState
  | .createOp u c m d time => { s with tasks := (create_task u c m d time s.tasks).1 }
  | .claimOp u tid => { s with tasks := (accept_task u tid s.tasks).1 }
  | .submitOp u tid => { s with tasks := (user_complete u tid s.tasks).1 }
  | .reviewOp u tid =>
    let r := review_task u tid s.tasks s.points
    { tasks := r.1, points := r.2.1 }

/-- Run a sequence of commands starting from empty collections. -/
def runOps (ops : List Op) : SysState :=
  ops.foldl applyOp { tasks := [], points := [] }

/-- The claimant invariant: a stored task has a null `accepted_by_id`
exactly when it is still `pending`. -/
def claimantInv (ts : List Task) : Prop :=
  ∀ t ∈ ts, (t.accepted_by_id = none ↔ t.status = "pending")

/-! ### Decimal rendering and parsing -/

theorem natToDigitsAux_succ (f n : Nat) :
    natToDigitsAux (f + 1) n =
      if n < 10 then [digitChar n]
      else natToDigitsAux f (n / 10) ++ [digitChar (n % 10)] := rfl

theorem natToDigitsAux_fuel (f g n : Nat) (hf : n < f) (hg : n < g) :
    natToDigitsAux f n = natToDigitsAux g n := by
  induction f generalizing g n with
  | zero => omega
  | succ f ih =>
    cases g with
    | zero => omega
    | succ g =>
      rw [natToDigitsAux_succ, natToDigitsAux_succ]
      by_cases h : n < 10
      · simp [h]
      · have hd : n / 10 < n := Nat.div_lt_self (by omega) (by omega)
        rw [if_neg h, if_neg h, ih g (n / 10) (by omega) (by omega)]

theorem natToDigits_small {n : Nat} (h : n < 10) :
    natToDigits n = [digitChar n] := by
  unfold natToDigits
  rw [natToDigitsAux_succ, if_pos h]

theorem natToDigits_large {n : Nat} (h : ¬ n < 10) :
    natToDigits n = natToDigits (n / 10) ++ [digitChar (n % 10)] := by
  have hd : n / 10 < n := Nat.div_lt_self (by omega) (by omega)
  unfold natToDigits
  rw [natToDigitsAux_succ, if_neg h,
      natToDigitsAux_fuel n (n / 10 + 1) (n / 10) (by omega) (by omega)]

theorem digitChar_toNat {d : Nat} (h : d < 10) : (digitChar d).toNat = 48 + d := by
  interval_cases d <;> rfl

theorem digitChar_isDigit {d : Nat} (h : d < 10) : (digitChar d).isDigit = true := by
  interval_cases d <;> rfl

theorem natToDigits_all_digit (n : Nat) : ∀ c ∈ natToDigits n, c.isDigit = true := by
  induction n using Nat.strong_induction_on with
  | _ n ih =>
    by_cases h : n < 10
    · rw [natToDigits_small h]
      intro c hc
      rw [List.mem_singleton] at hc
      subst hc
      exact digitChar_isDigit h
    · rw [natToDigits_large h]
      intro c hc
      rcases List.mem_append.mp hc with h1 | h1
      · exact ih (n / 10) (Nat.div_lt_self (by omega) (by omega)) c h1
      · rw [List.mem_singleton] at h1
        subst h1
        exact digitChar_isDigit (Nat.mod_lt _ (by omega))

theorem natToDigits_length_le {n k : Nat} (hk : 0 < k) (h : n < 10 ^ k) :
    (natToDigits n).length ≤ k := by
  induction k generalizing n with
  | zero => omega
  | succ k ih =>
    by_cases hn : n < 10
    · rw [natToDigits_small hn]
      simp
    · have hk2 : 0 < k := by
        by_contra hc
        have : k = 0 := by omega
        subst this
        simp [pow_succ] at h
        omega
      rw [natToDigits_large hn]
      have hdiv : n / 10 < 10 ^ k := by
        rw [Nat.div_lt_iff_lt_mul (by omega)]
        calc n < 10 ^ (k + 1) := h
        _ = 10 ^ k * 10 := by ring
      have := ih hk2 hdiv
      simp only [List.length_append, List.length_singleton]
      omega

theorem strToNat_snoc (s : PyStr) (c : Char) :
    strToNat (s ++ [c]) = 10 * strToNat s + (c.toNat - 48) := by
  unfold strToNat
  rw [List.foldl_append]
  simp [List.foldl]
  ring

theorem strToNat_natToDigits (n : Nat) : strToNat (natToDigits n) = n := by
  induction n using Nat.strong_induction_on with
  | _ n ih =>
    by_cases h : n < 10
    · rw [natToDigits_small h]
      unfold strToNat
      simp [List.foldl, digitChar_toNat h]
    · rw [natToDigits_large h, strToNat_snoc,
          ih (n / 10) (Nat.div_lt_self (by omega) (by omega)),
          digitChar_toNat (Nat.mod_lt _ (by omega))]
      omega

theorem strToNat_replicate_zeros (k : Nat) (l : PyStr) :
    strToNat (List.replicate k '0' ++ l) = strToNat l := by
  induction k with
  | zero => simp
  | succ k ih =>
    rw [List.replicate_succ, List.cons_append]
    unfold strToNat at ih ⊢
    rw [List.foldl_cons]
    exact ih

theorem strToNat_padNum (w n : Nat) : strToNat (padNum w n) = n := by
  unfold padNum
  rw [strToNat_replicate_zeros, strToNat_natToDigits]

theorem padNum_length {w n : Nat} (h : (natToDigits n).length ≤ w) :
    (padNum w n).length = w := by
  simp [padNum]
  omega

theorem padNum_length_two {n : Nat} (h : n ≤ 99) : (padNum 2 n).length = 2 :=
  padNum_length (natToDigits_length_le (by omega) (by omega : n < 10 ^ 2))

theorem padNum_length_three {n : Nat} (h : n ≤ 999) : (padNum 3 n).length = 3 :=
  padNum_length (natToDigits_length_le (by omega) (by omega : n < 10 ^ 3))

theorem padNum_all_digit (w n : Nat) : ∀ c ∈ padNum w n, c.isDigit = true := by
  intro c hc
  rcases List.mem_append.mp hc with h1 | h1
  · rw [List.eq_of_mem_replicate h1]
    rfl
  · exact natToDigits_all_digit n c h1

theorem date_str_length {m d : Nat} (hm : m ≤ 99) (hd : d ≤ 99) :
    (date_str m d).length = 4 := by
  simp [date_str, padNum_length_two hm, padNum_length_two hd]

/-! ### Claim C2: exact characterization of `_validate_task_id` -/

/-- The numeric value of a digit character. -/
def dVal (c : Char) : Nat := c.toNat - 48

/-- C2: `validate_task_id s` is true for exactly the strings of seven
decimal digits whose first two digits form a number in `[1, 12]` and
whose next two digits form a number in `[1, 31]`; every shorter, longer
or non-digit string and every out-of-range month or day is rejected. -/
theorem validate_task_id_iff (s : PyStr) :
    validate_task_id s = true ↔
      ∃ c1 c2 c3 c4 c5 c6 c7 : Char,
        s = [c1, c2, c3, c4, c5, c6, c7]
        ∧ (∀ c ∈ s, c.isDigit = true)
        ∧ 1 ≤ 10 * dVal c1 + dVal c2 ∧ 10 * dVal c1 + dVal c2 ≤ 12
        ∧ 1 ≤ 10 * dVal c3 + dVal c4 ∧ 10 * dVal c3 + dVal c4 ≤ 31 := by
  constructor
  · intro h
    simp only [validate_task_id, Bool.and_eq_true, beq_iff_eq,
      decide_eq_true_eq, List.all_eq_true] at h
    obtain ⟨⟨⟨⟨⟨hlen, hdig⟩, hm1⟩, hm2⟩, hd1⟩, hd2⟩ := h
    match s, hlen with
    | [c1, c2, c3, c4, c5, c6, c7], _ =>
      refine ⟨c1, c2, c3, c4, c5, c6, c7, rfl, fun c hc => hdig c hc, ?_, ?_, ?_, ?_⟩ <;>
        · simp only [List.take, List.drop, strToNat, List.foldl, dVal] at hm1 hm2 hd1 hd2 ⊢
          omega
  · rintro ⟨c1, c2, c3, c4, c5, c6, c7, rfl, hdig, hm1, hm2, hd1, hd2⟩
    simp only [dVal] at hm1 hm2 hd1 hd2
    simp only [validate_task_id, Bool.and_eq_true, beq_iff_eq,
      decide_eq_true_eq, List.all_eq_true]
    refine ⟨⟨⟨⟨⟨rfl, fun c hc => hdig c hc⟩, ?_⟩, ?_⟩, ?_⟩, ?_⟩ <;>
      · simp only [List.take, List.drop, strToNat, List.foldl, dVal]
        omega

/-! ### Claims C1 and C10: id generation -/

theorem max_serial_nil (ds : PyStr) : max_serial ds [] = 0 := rfl

theorem max_serial_no_match (ds : PyStr) (ts : List Task)
    (h : ∀ t ∈ ts, sameDayShape ds t = false) : max_serial ds ts = 0 := by
  unfold max_serial
  rw [List.filter_eq_nil_iff.mpr (by intro t ht; simp [h t ht])]
  rfl

theorem max_serial_snoc (ds : PyStr) (ts : List Task) (t : Task) :
    max_serial ds (ts ++ [t]) =
      if sameDayShape ds t then
        max (max_serial ds ts) (strToNat (t.task_id.drop 4))
      else max_serial ds ts := by
  unfold max_serial
  rw [List.filter_append, List.map_append, List.foldl_append]
  by_cases h : sameDayShape ds t
  · simp [h, List.filter, List.foldl]
  · simp [h, List.filter, List.foldl]

theorem generate_suffix {m d : Nat} (hm : m ≤ 12) (hd : d ≤ 31) (ts : List Task) :
    (generate_task_id m d ts).drop 4 = padNum 3 (max_serial (date_str m d) ts + 1) := by
  unfold generate_task_id
  have h4 : (date_str m d).length = 4 := date_str_length (by omega) (by omega)
  exact List.drop_left' h4

theorem sameDayShape_generated {m d : Nat} (hm : m ≤ 12) (hd : d ≤ 31)
    (ts : List Task) (hmax : max_serial (date_str m d) ts ≤ 998) (t : Task)
    (htid : t.task_id = generate_task_id m d ts) :
    sameDayShape (date_str m d) t = true := by
  have h4 : (date_str m d).length = 4 := date_str_length (by omega) (by omega)
  have h3 : (padNum 3 (max_serial (date_str m d) ts + 1)).length = 3 :=
    padNum_length_three (by omega)
  unfold sameDayShape
  rw [htid]
  simp only [Bool.and_eq_true, beq_iff_eq]
  refine ⟨⟨?_, ?_⟩, ?_⟩
  · rw [List.isPrefixOf_iff_prefix]
    exact List.prefix_append _ _
  · unfold generate_task_id
    simp [List.length_append, h4, h3]
  · rw [generate_suffix hm hd ts, List.all_eq_true]
    exact padNum_all_digit 3 _

/-- C1, amended: `_generate_task_id` returns today's `MMDD` followed by
`max same-day serial + 1` zero-padded to three digits; on a day with no
same-day tasks the suffix is `001`; and as long as the current maximal
serial is at most 998, creating a task with the generated id bumps the
maximal serial by exactly one, so consecutively generated ids on one day
carry strictly increasing, gap-free suffixes.  (The gap-free growth
genuinely needs the 998 bound: once serial 999 exists the next id is 8
characters long and is generated again verbatim, see the counterexample.) -/
theorem generate_task_id_spec (m d : Nat) (ts : List Task)
    (hm1 : 1 ≤ m) (hm2 : m ≤ 12) (hd1 : 1 ≤ d) (hd2 : d ≤ 31) :
    generate_task_id m d ts
        = date_str m d ++ padNum 3 (max_serial (date_str m d) ts + 1)
    ∧ ((∀ t ∈ ts, sameDayShape (date_str m d) t = false) →
        generate_task_id m d ts = date_str m d ++ ['0', '0', '1'])
    ∧ (max_serial (date_str m d) ts ≤ 998 →
        strToNat ((generate_task_id m d ts).drop 4)
            = max_serial (date_str m d) ts + 1
        ∧ ∀ t : Task, t.task_id = generate_task_id m d ts →
            max_serial (date_str m d) (ts ++ [t])
              = max_serial (date_str m d) ts + 1) := by
  refine ⟨rfl, ?_, ?_⟩
  · intro h
    unfold generate_task_id
    rw [max_serial_no_match _ _ h]
    rfl
  · intro hmax
    have hsuf : strToNat ((generate_task_id m d ts).drop 4)
        = max_serial (date_str m d) ts + 1 := by
      rw [generate_suffix hm2 hd2 ts, strToNat_padNum]
    refine ⟨hsuf, ?_⟩
    intro t htid
    rw [max_serial_snoc, if_pos (sameDayShape_generated hm2 hd2 ts hmax t htid),
        htid, hsuf]
    omega

/-- A minimal concrete task record used in counterexamples and witnesses. -/
def mkCexTask (id : PyStr) : Task :=
  { task_id := id, publisher_id := "p1", publisher_name := "P1",
    content := "c", publish_time := "t", status := "pending",
    accepted_by_id := none, accepted_by_name := none }

/-- C1, counterexample to the unbounded claim: once serial 999 exists for
the day, the generated id is the 8-character `07151000`, and generating
again after storing that task yields the very same id — the suffixes are
no longer strictly increasing. -/
theorem generate_task_id_not_increasing_at_999 :
    generate_task_id 7 15 [mkCexTask ['0', '7', '1', '5', '9', '9', '9']]
        = ['0', '7', '1', '5', '1', '0', '0', '0']
    ∧ generate_task_id 7 15
        [mkCexTask ['0', '7', '1', '5', '9', '9', '9'],
         mkCexTask ['0', '7', '1', '5', '1', '0', '0', '0']]
        = ['0', '7', '1', '5', '1', '0', '0', '0'] := by
  constructor <;> rfl

/-- Witness for `generate_task_id_spec` at a concrete input. -/
theorem generate_task_id_spec_witness :
    generate_task_id 7 15 [mkCexTask ['0', '7', '1', '5', '0', '0', '7']]
        = date_str 7 15 ++ padNum 3 (max_serial (date_str 7 15)
            [mkCexTask ['0', '7', '1', '5', '0', '0', '7']] + 1) :=
  (generate_task_id_spec 7 15 [mkCexTask ['0', '7', '1', '5', '0', '0', '7']]
    (by decide) (by decide) (by decide) (by decide)).1

/-- C10: whenever the day's maximal serial is at most 998 (in particular
with fewer than 999 same-day tasks), the id produced by
`_generate_task_id` passes `_validate_task_id`. -/
theorem validate_generated_id (m d : Nat) (ts : List Task)
    (hm1 : 1 ≤ m) (hm2 : m ≤ 12) (hd1 : 1 ≤ d) (hd2 : d ≤ 31)
    (hmax : max_serial (date_str m d) ts ≤ 998) :
    validate_task_id (generate_task_id m d ts) = true := by
  have hm99 : (padNum 2 m).length = 2 := padNum_length_two (by omega)
  have hd99 : (padNum 2 d).length = 2 := padNum_length_two (by omega)
  have h3 : (padNum 3 (max_serial (date_str m d) ts + 1)).length = 3 :=
    padNum_length_three (by omega)
  have hassoc : generate_task_id m d ts
      = padNum 2 m ++ (padNum 2 d ++ padNum 3 (max_serial (date_str m d) ts + 1)) := by
    unfold generate_task_id date_str
    rw [List.append_assoc]
  simp only [validate_task_id, Bool.and_eq_true, beq_iff_eq,
    decide_eq_true_eq, List.all_eq_true]
  refine ⟨⟨⟨⟨⟨?_, ?_⟩, ?_⟩, ?_⟩, ?_⟩, ?_⟩
  · rw [hassoc]
    simp [List.length_append, hm99, hd99, h3]
  · intro c hc
    rw [hassoc] at hc
    rcases List.mem_append.mp hc with h1 | h1
    · exact padNum_all_digit _ _ c h1
    · rcases List.mem_append.mp h1 with h2 | h2
      · exact padNum_all_digit _ _ c h2
      · exact padNum_all_digit _ _ c h2
  · rw [hassoc, List.take_left' hm99, strToNat_padNum]
    omega
  · rw [hassoc, List.take_left' hm99, strToNat_padNum]
    omega
  · rw [hassoc, List.drop_left' hm99, List.take_left' hd99, strToNat_padNum]
    omega
  · rw [hassoc, List.drop_left' hm99, List.take_left' hd99, strToNat_padNum]
    omega

/-- Witness for `validate_generated_id` at a concrete input. -/
theorem validate_generated_id_witness :
    validate_task_id (generate_task_id 12 31
        [mkCexTask ['1', '2', '3', '1', '0', '4', '2']]) = true :=
  validate_generated_id 12 31 [mkCexTask ['1', '2', '3', '1', '0', '4', '2']]
    (by decide) (by decide) (by decide) (by decide) (by decide)

/-! ### Claim C3: claiming a task -/

theorem acceptLoop_no_match (u : User) (tid : PyStr) (ts : List Task)
    (h : ∀ t ∈ ts, ¬(t.task_id = tid ∧ t.status = "pending")) :
    acceptLoop u tid ts = (ts, .notClaimable) := by
  induction ts with
  | nil => rfl
  | cons t ts ih =>
    unfold acceptLoop
    rw [if_neg (h t (List.mem_cons_self t ts)),
        ih (fun t' ht' => h t' (List.mem_cons_of_mem t ht'))]

theorem acceptLoop_match (u : User) (tid : PyStr) (pre post : List Task) (t : Task)
    (hpre : ∀ t' ∈ pre, ¬(t'.task_id = tid ∧ t'.status = "pending"))
    (hid : t.task_id = tid) (hst : t.status = "pending") :
    acceptLoop u tid (pre ++ t :: post) =
      (pre ++ { t with status := "accepted", accepted_by_id := some u.id,
                       accepted_by_name := some u.name } :: post, .ok) := by
  induction pre with
  | nil =>
    simp only [List.nil_append]
    unfold acceptLoop
    rw [if_pos ⟨hid, hst⟩]
  | cons p pre ih =>
    simp only [List.cons_append]
    unfold acceptLoop
    rw [if_neg (hpre p (List.mem_cons_self p pre)),
        ih (fun t' ht' => hpre t' (List.mem_cons_of_mem p ht'))]

theorem acceptLoop_ok_iff (u : User) (tid : PyStr) (ts : List Task) :
    (acceptLoop u tid ts).2 = .ok ↔ ∃ t ∈ ts, t.task_id = tid ∧ t.status = "pending" := by
  induction ts with
  | nil => simp [acceptLoop]
  | cons t ts ih =>
    unfold acceptLoop
    by_cases h : t.task_id = tid ∧ t.status = "pending"
    · simp [h]
    · simp only [if_neg h, ih, List.mem_cons]
      constructor
      · rintro ⟨t', ht', hc⟩
        exact ⟨t', Or.inr ht', hc⟩
      · rintro ⟨t', ht' | ht', hc⟩
        · subst ht'
          exact absurd hc h
        · exact ⟨t', ht', hc⟩

/-- C3, amended: Claim succeeds exactly when the id has valid shape and a
stored `pending` task carries that id; on success the first such task
becomes `accepted` with the caller recorded as claimant.  A malformed id
is rejected with the id-format error (not the generic "not claimable"
rejection, which the code reserves for a well-formed id that is absent or
not `pending`); in every failure case the stored collection is unchanged. -/
theorem accept_task_spec (u : User) (tid : PyStr) (ts : List Task) :
    ((accept_task u tid ts).2 = .ok ↔
        validate_task_id tid = true ∧ ∃ t ∈ ts, t.task_id = tid ∧ t.status = "pending")
    ∧ (validate_task_id tid = false →
        accept_task u tid ts = (ts, .invalidFormat))
    ∧ (validate_task_id tid = true →
        (∀ t ∈ ts, ¬(t.task_id = tid ∧ t.status = "pending")) →
        accept_task u tid ts = (ts, .notClaimable))
    ∧ (∀ pre post t, ts = pre ++ t :: post →
        validate_task_id tid = true →
        (∀ t' ∈ pre, ¬(t'.task_id = tid ∧ t'.status = "pending")) →
        t.task_id = tid → t.status = "pending" →
        accept_task u tid ts =
          (pre ++ { t with status := "accepted", accepted_by_id := some u.id,
                           accepted_by_name := some u.name } :: post, .ok)) := by
  refine ⟨?_, ?_, ?_, ?_⟩
  · unfold accept_task
    by_cases hv : validate_task_id tid
    · simp [hv, acceptLoop_ok_iff]
    · simp [hv]
  · intro hv
    unfold accept_task
    simp [hv]
  · intro hv h
    unfold accept_task
    rw [if_pos hv, acceptLoop_no_match u tid ts h]
  · intro pre post t hts hv hpre hid hst
    subst hts
    unfold accept_task
    rw [if_pos hv, acceptLoop_match u tid pre post t hpre hid hst]

/-- C3, counterexample to the claim as stated: for the malformed id `"0"`
the code yields the id-format rejection ("❌ 任务ID格式应为7位数字"), not
the generic not-claimable rejection ("❌ 任务不可接受") that the claim
asserts for malformed ids. -/
theorem accept_task_malformed_not_notClaimable :
    (accept_task { id := "u1", name := "U1" } ['0'] []).2 = ClaimResult.invalidFormat
    ∧ ClaimResult.invalidFormat ≠ ClaimResult.notClaimable := by
  constructor
  · rfl
  · intro h
    cases h

/-- Witness for `accept_task_spec` at a concrete input: claiming the only
pending task succeeds and records the claimant. -/
theorem accept_task_spec_witness :
    accept_task { id := "u1", name := "U1" } ['0', '7', '1', '5', '0', '0', '1']
        [mkCexTask ['0', '7', '1', '5', '0', '0', '1']]
      = ([{ mkCexTask ['0', '7', '1', '5', '0', '0', '1'] with
              status := "accepted", accepted_by_id := some "u1",
              accepted_by_name := some "U1" }], .ok) :=
  (accept_task_spec { id := "u1", name := "U1" } ['0', '7', '1', '5', '0', '0', '1']
      [mkCexTask ['0', '7', '1', '5', '0', '0', '1']]).2.2.2
    [] [] (mkCexTask ['0', '7', '1', '5', '0', '0', '1']) rfl (by decide)
    (by intro t' ht'; cases ht') rfl rfl

/-! ### Claim C4: submitting is restricted to the claimant -/

theorem completeLoop_match (u : User) (tid : PyStr) (pre post : List Task) (t : Task)
    (hpre : ∀ t' ∈ pre, ¬(t'.task_id = tid ∧ t'.status = "accepted"))
    (hid : t.task_id = tid) (hst : t.status = "accepted") :
    completeLoop u tid (pre ++ t :: post) =
      if t.accepted_by_id = some u.id then
        (pre ++ { t with status := "pending_review" } :: post, .ok)
      else (pre ++ t :: post, .notYourTask) := by
  induction pre with
  | nil =>
    simp only [List.nil_append]
    unfold completeLoop
    rw [if_pos ⟨hid, hst⟩]
    by_cases h : t.accepted_by_id = some u.id
    · simp [h]
    · simp [h]
  | cons p pre ih =>
    simp only [List.cons_append]
    unfold completeLoop
    rw [if_neg (hpre p (List.mem_cons_self p pre)),
        ih (fun t' ht' => hpre t' (List.mem_cons_of_mem p ht'))]
    by_cases h : t.accepted_by_id = some u.id
    · simp [h]
    · simp [h]

/-- C4: for a stored `accepted` task (with a well-formed id, which every
system-generated id is), Submit succeeds — moving it to `pending_review`
— exactly when the caller is the recorded claimant; any other caller,
the publisher included, receives the "not your task" rejection and the
stored collection is unchanged. -/
theorem user_complete_claimant_only (u : User) (tid : PyStr)
    (pre post : List Task) (t : Task)
    (hv : validate_task_id tid = true)
    (hpre : ∀ t' ∈ pre, ¬(t'.task_id = tid ∧ t'.status = "accepted"))
    (hid : t.task_id = tid) (hst : t.status = "accepted") :
    (t.accepted_by_id ≠ some u.id →
        user_complete u tid (pre ++ t :: post) = (pre ++ t :: post, .notYourTask))
    ∧ (t.accepted_by_id = some u.id →
        user_complete u tid (pre ++ t :: post) =
          (pre ++ { t with status := "pending_review" } :: post, .ok)) := by
  unfold user_complete
  rw [if_pos hv, completeLoop_match u tid pre post t hpre hid hst]
  constructor
  · intro h
    rw [if_neg h]
  · intro h
    rw [if_pos h]

/-- Witness for `user_complete_claimant_only`: a caller who is not the
claimant (here the publisher `p1`) is rejected and the store is kept. -/
theorem user_complete_claimant_only_witness :
    user_complete { id := "p1", name := "P1" } ['0', '7', '1', '5', '0', '0', '1']
        [{ mkCexTask ['0', '7', '1', '5', '0', '0', '1'] with
             status := "accepted", accepted_by_id := some "u1",
             accepted_by_name := some "U1" }]
      = ([{ mkCexTask ['0', '7', '1', '5', '0', '0', '1'] with
              status := "accepted", accepted_by_id := some "u1",
              accepted_by_name := some "U1" }], .notYourTask) :=
  (user_complete_claimant_only { id := "p1", name := "P1" }
      ['0', '7', '1', '5', '0', '0', '1'] [] []
      { mkCexTask ['0', '7', '1', '5', '0', '0', '1'] with
          status := "accepted", accepted_by_id := some "u1",
          accepted_by_name := some "U1" }
      (by decide) (by intro t' ht'; cases ht') rfl rfl).1 (by decide)

/-! ### Claims C5 and C6: reviewing a task -/

theorem reviewFind_no_match (tid : PyStr) (ts : List Task)
    (h : ∀ t ∈ ts, ¬(t.task_id = tid ∧ t.status = "pending_review")) :
    reviewFind tid ts = none := by
  induction ts with
  | nil => rfl
  | cons t ts ih =>
    unfold reviewFind
    rw [if_neg (h t (List.mem_cons_self t ts)),
        ih (fun t' ht' => h t' (List.mem_cons_of_mem t ht'))]

theorem reviewFind_match (tid : PyStr) (pre post : List Task) (t : Task)
    (hpre : ∀ t' ∈ pre, ¬(t'.task_id = tid ∧ t'.status = "pending_review"))
    (hid : t.task_id = tid) (hst : t.status = "pending_review") :
    reviewFind tid (pre ++ t :: post) =
      some (t, pre ++ { t with status := "completed" } :: post) := by
  induction pre with
  | nil =>
    simp only [List.nil_append]
    unfold reviewFind
    rw [if_pos ⟨hid, hst⟩]
  | cons p pre ih =>
    simp only [List.cons_append]
    unfold reviewFind
    rw [if_neg (hpre p (List.mem_cons_self p pre)),
        ih (fun t' ht' => hpre t' (List.mem_cons_of_mem p ht'))]

theorem creditLoop_new (cid cname : Option String) (ps : List PointRec)
    (h : ∀ p ∈ ps, p.user_id ≠ cid) :
    creditLoop cid cname ps =
      (ps ++ [{ user_id := cid, name := cname, points := 1 }], 1) := by
  induction ps with
  | nil => rfl
  | cons p ps ih =>
    unfold creditLoop
    rw [if_neg (h p (List.mem_cons_self p ps)),
        ih (fun p' hp' => h p' (List.mem_cons_of_mem p hp'))]
    simp

theorem creditLoop_existing (cid cname : Option String)
    (ppre ppost : List PointRec) (p : PointRec)
    (hpre : ∀ q ∈ ppre, q.user_id ≠ cid) (hp : p.user_id = cid) :
    creditLoop cid cname (ppre ++ p :: ppost) =
      (ppre ++ { p with points := p.points + 1 } :: ppost, p.points + 1) := by
  induction ppre with
  | nil =>
    simp only [List.nil_append]
    unfold creditLoop
    rw [if_pos hp]
  | cons q ppre ih =>
    simp only [List.cons_append]
    unfold creditLoop
    rw [if_neg (hpre q (List.mem_cons_self q ppre)),
        ih (fun q' hq' => hpre q' (List.mem_cons_of_mem q hq'))]

/-- C5: an admin's Review of a `pending_review` task (with a well-formed,
store-unique id) completes it exactly once — the first call succeeds and
sets the task to `completed`; a second Review of the same id then hits no
`pending_review` task, returns the "not valid" rejection and leaves both
the task collection and the points collection exactly as they were, so
the claimant is never credited twice. -/
theorem review_task_exactly_once (u : User) (tid : PyStr)
    (pre post : List Task) (t : Task) (ps : List PointRec)
    (hadmin : u.id ∈ admin_list) (hv : validate_task_id tid = true)
    (hid : t.task_id = tid) (hst : t.status = "pending_review")
    (hpre : ∀ t' ∈ pre, t'.task_id ≠ tid)
    (hpost : ∀ t' ∈ post, t'.task_id ≠ tid) :
    ∃ total ps1,
      review_task u tid (pre ++ t :: post) ps
          = (pre ++ { t with status := "completed" } :: post, ps1, .ok total)
      ∧ review_task u tid (pre ++ { t with status := "completed" } :: post) ps1
          = (pre ++ { t with status := "completed" } :: post, ps1, .invalidTask) := by
  have hfind : reviewFind tid (pre ++ t :: post) =
      some (t, pre ++ { t with status := "completed" } :: post) :=
    reviewFind_match tid pre post t
      (fun t' ht' h => hpre t' ht' h.1) hid hst
  refine ⟨(creditLoop t.accepted_by_id t.accepted_by_name ps).2,
          (creditLoop t.accepted_by_id t.accepted_by_name ps).1, ?_, ?_⟩
  · unfold review_task
    rw [if_pos hv, if_pos hadmin, hfind]
  · unfold review_task
    rw [if_pos hv, if_pos hadmin, reviewFind_no_match]
    intro t' ht' hc
    rcases List.mem_append.mp ht' with h1 | h1
    · exact hpre t' h1 hc.1
    · rcases List.mem_cons.mp h1 with h2 | h2
      · subst h2
        simp at hc
      · exact hpost t' h2 hc.1

/-- Witness for `review_task_exactly_once` at a concrete input. -/
theorem review_task_exactly_once_witness :
    ∃ total ps1,
      review_task { id := "2195556927", name := "A" }
          ['0', '7', '1', '5', '0', '0', '1']
          [{ mkCexTask ['0', '7', '1', '5', '0', '0', '1'] with
               status := "pending_review", accepted_by_id := some "u1",
               accepted_by_name := some "U1" }] []
        = ([{ mkCexTask ['0', '7', '1', '5', '0', '0', '1'] with
                status := "completed", accepted_by_id := some "u1",
                accepted_by_name := some "U1" }], ps1, .ok total)
      ∧ review_task { id := "2195556927", name := "A" }
          ['0', '7', '1', '5', '0', '0', '1']
          [{ mkCexTask ['0', '7', '1', '5', '0', '0', '1'] with
               status := "completed", accepted_by_id := some "u1",
               accepted_by_name := some "U1" }] ps1
        = ([{ mkCexTask ['0', '7', '1', '5', '0', '0', '1'] with
                status := "completed", accepted_by_id := some "u1",
                accepted_by_name := some "U1" }], ps1, .invalidTask) :=
  review_task_exactly_once { id := "2195556927", name := "A" }
    ['0', '7', '1', '5', '0', '0', '1'] [] []
    { mkCexTask ['0', '7', '1', '5', '0', '0', '1'] with
        status := "pending_review", accepted_by_id := some "u1",
        accepted_by_name := some "U1" } []
    (by decide) (by decide) rfl rfl
    (by intro t' ht'; cases ht') (by intro t' ht'; cases ht')

/-- C6: a successful Review credits the claimant with the per-review
reward (1 point in this code): an unknown claimant gets a fresh balance
record carrying the claimant's display name and the reward as its point
total, an existing record has the reward added to its prior total, and
the updated total is reported in the confirmation result. -/
theorem review_task_credits_claimant (u : User) (tid : PyStr)
    (pre post : List Task) (t : Task) (ps : List PointRec)
    (hadmin : u.id ∈ admin_list) (hv : validate_task_id tid = true)
    (hid : t.task_id = tid) (hst : t.status = "pending_review")
    (hpre : ∀ t' ∈ pre, t'.task_id ≠ tid) :
    ((∀ p ∈ ps, p.user_id ≠ t.accepted_by_id) →
        review_task u tid (pre ++ t :: post) ps
          = (pre ++ { t with status := "completed" } :: post,
             ps ++ [{ user_id := t.accepted_by_id,
                      name := t.accepted_by_name, points := 1 }],
             .ok 1))
    ∧ (∀ ppre ppost p, ps = ppre ++ p :: ppost →
        (∀ q ∈ ppre, q.user_id ≠ t.accepted_by_id) →
        p.user_id = t.accepted_by_id →
        review_task u tid (pre ++ t :: post) ps
          = (pre ++ { t with status := "completed" } :: post,
             ppre ++ { p with points := p.points + 1 } :: ppost,
             .ok (p.points + 1))) := by
  have hfind : reviewFind tid (pre ++ t :: post) =
      some (t, pre ++ { t with status := "completed" } :: post) :=
    reviewFind_match tid pre post t
      (fun t' ht' h => hpre t' ht' h.1) hid hst
  constructor
  · intro hnew
    unfold review_task
    rw [if_pos hv, if_pos hadmin, hfind]
    dsimp only
    rw [creditLoop_new t.accepted_by_id t.accepted_by_name ps hnew]
  · intro ppre ppost p hps hqpre hquser
    subst hps
    unfold review_task
    rw [if_pos hv, if_pos hadmin, hfind]
    dsimp only
    rw [creditLoop_existing t.accepted_by_id t.accepted_by_name ppre ppost p
          hqpre hquser]

/-- Witness for `review_task_credits_claimant`: crediting a claimant with
an existing balance of 4 reports a total of 5. -/
theorem review_task_credits_claimant_witness :
    review_task { id := "2195556927", name := "A" }
        ['0', '7', '1', '5', '0', '0', '1']
        [{ mkCexTask ['0', '7', '1', '5', '0', '0', '1'] with
             status := "pending_review", accepted_by_id := some "u1",
             accepted_by_name := some "U1" }]
        [{ user_id := some "u1", name := some "U1", points := 4 }]
      = ([{ mkCexTask ['0', '7', '1', '5', '0', '0', '1'] with
              status := "completed", accepted_by_id := some "u1",
              accepted_by_name := some "U1" }],
         [{ user_id := some "u1", name := some "U1", points := 5 }],
         .ok 5) :=
  (review_task_credits_claimant { id := "2195556927", name := "A" }
      ['0', '7', '1', '5', '0', '0', '1'] [] []
      { mkCexTask ['0', '7', '1', '5', '0', '0', '1'] with
          status := "pending_review", accepted_by_id := some "u1",
          accepted_by_name := some "U1" }
      [{ user_id := some "u1", name := some "U1", points := 4 }]
      (by decide) (by decide) rfl rfl
      (by intro t' ht'; cases ht')).2
    [] [] { user_id := some "u1", name := some "U1", points := 4 }
    rfl (by intro q hq; cases hq) rfl

/-! ### Claim C7: migration transforms legacy records once -/

theorem migrateRecord_fix (t : RawTask) :
    migrateRecord (migrateRecord t).1 = ((migrateRecord t).1, false) := by
  rcases hab : t.accepted_by with _ | v <;>
    rcases habi : t.accepted_by_id with _ | w <;>
      rcases hpn : t.publisher_name with _ | nm <;>
        simp [migrateRecord, hab, habi, hpn]

/-- C7: migration is idempotent.  A record holding the legacy
`accepted_by` key and no split `accepted_by_id`/`accepted_by_name` keys
is rewritten into `accepted_by_id = legacy value` plus the placeholder
claimant name, with the legacy key removed; a record lacking
`publisher_name` receives the placeholder publisher name; and re-running
migration over an already-migrated collection changes no record (and
reports no change, so nothing is re-persisted). -/
theorem migrate_old_data_spec (ts : List RawTask) :
    (∀ t : RawTask, ∀ v, t.accepted_by = some v → t.accepted_by_id = none →
        t.accepted_by_name = none →
        (migrateRecord t).1.accepted_by_id = some v
        ∧ (migrateRecord t).1.accepted_by_name = some (some "历史用户")
        ∧ (migrateRecord t).1.accepted_by = none)
    ∧ (∀ t : RawTask, t.publisher_name = none →
        (migrateRecord t).1.publisher_name = some "历史发布者")
    ∧ migrate_old_data (migrate_old_data ts).1 = ((migrate_old_data ts).1, false) := by
  refine ⟨?_, ?_, ?_⟩
  · intro t v hab habi habn
    rcases hpn : t.publisher_name with _ | nm <;>
      simp [migrateRecord, hab, habi, hpn]
  · intro t hpn
    by_cases h : t.accepted_by.isSome = true ∧ t.accepted_by_id = none <;>
      simp [migrateRecord, h, hpn]
  · unfold migrate_old_data
    simp only [List.map_map, List.any_map, Function.comp]
    congr 1
    · apply List.map_congr_left
      intro t ht
      simp only [Function.comp_apply]
      rw [migrateRecord_fix]
    · rw [List.any_eq_false]
      intro t ht
      simp only [Function.comp_apply]
      rw [migrateRecord_fix]
      simp

/-- Witness for `migrate_old_data_spec`: a legacy record is split once
and a second migration pass reports no change. -/
theorem migrate_old_data_spec_witness :
    migrate_old_data (migrate_old_data
        [{ task_id := ['0', '7', '1', '5', '0', '0', '1'], publisher_id := "p1",
           publisher_name := none, content := "c", status := "accepted",
           accepted_by := some (some "u1"), accepted_by_id := none,
           accepted_by_name := none }]).1
      = ((migrate_old_data
        [{ task_id := ['0', '7', '1', '5', '0', '0', '1'], publisher_id := "p1",
           publisher_name := none, content := "c", status := "accepted",
           accepted_by := some (some "u1"), accepted_by_id := none,
           accepted_by_name := none }]).1, false) :=
  (migrate_old_data_spec
    [{ task_id := ['0', '7', '1', '5', '0', '0', '1'], publisher_id := "p1",
       publisher_name := none, content := "c", status := "accepted",
       accepted_by := some (some "u1"), accepted_by_id := none,
       accepted_by_name := none }]).2.2

/-! ### Claim C8: the leaderboard -/

theorem insertByDesc_perm (k : α → Nat) (x : α) (l : List α) :
    (insertByDesc k x l).Perm (x :: l) := by
  induction l with
  | nil => exact List.Perm.refl _
  | cons y ys ih =>
    unfold insertByDesc
    by_cases h : k x < k y
    · rw [if_pos h]
      exact (ih.cons y).trans (List.Perm.swap x y ys)
    · rw [if_neg h]

theorem sortByDesc_perm (k : α → Nat) (l : List α) :
    (sortByDesc k l).Perm l := by
  induction l with
  | nil => exact List.Perm.refl _
  | cons x xs ih =>
    exact (insertByDesc_perm k x (sortByDesc k xs)).trans (ih.cons x)

theorem pairwise_insertByDesc (k : α → Nat) (x : α) (l : List α)
    (h : l.Pairwise (fun a b => k b ≤ k a)) :
    (insertByDesc k x l).Pairwise (fun a b => k b ≤ k a) := by
  induction l with
  | nil => simp [insertByDesc]
  | cons y ys ih =>
    rw [List.pairwise_cons] at h
    obtain ⟨hy, hys⟩ := h
    unfold insertByDesc
    by_cases hlt : k x < k y
    · rw [if_pos hlt, List.pairwise_cons]
      refine ⟨?_, ih hys⟩
      intro z hz
      rcases List.mem_cons.mp ((insertByDesc_perm k x ys).mem_iff.mp hz) with h1 | h1
      · subst h1
        omega
      · exact hy z h1
    · rw [if_neg hlt, List.pairwise_cons]
      refine ⟨?_, List.pairwise_cons.mpr ⟨hy, hys⟩⟩
      intro z hz
      rcases List.mem_cons.mp hz with h1 | h1
      · subst h1
        omega
      · have := hy z h1
        omega

theorem pairwise_sortByDesc (k : α → Nat) (l : List α) :
    (sortByDesc k l).Pairwise (fun a b => k b ≤ k a) := by
  induction l with
  | nil => simp [sortByDesc]
  | cons x xs ih => exact pairwise_insertByDesc k x (sortByDesc k xs) ih

theorem map_snd_insertByDesc (k : β → Nat) (x : Nat × β) (l : List (Nat × β)) :
    (insertByDesc (fun q => k q.2) x l).map Prod.snd
      = insertByDesc k x.2 (l.map Prod.snd) := by
  induction l with
  | nil => rfl
  | cons p l ih =>
    unfold insertByDesc
    by_cases h : k x.2 < k p.2
    · simp only [if_pos h, List.map_cons, ih]
    · simp only [if_neg h, List.map_cons]

theorem map_snd_sortByDesc (k : β → Nat) (l : List (Nat × β)) :
    (sortByDesc (fun q => k q.2) l).map Prod.snd = sortByDesc k (l.map Prod.snd) := by
  induction l with
  | nil => rfl
  | cons p l ih =>
    simp only [sortByDesc, List.map_cons, map_snd_insertByDesc, ih]

/-- Descending on the key, with ties broken by the attached index: the
order a stable descending sort must realize on an indexed list. -/
def rankRel (k : β → Nat) (a b : Nat × β) : Prop :=
  k b.2 < k a.2 ∨ (k a.2 = k b.2 ∧ a.1 < b.1)

theorem pairwise_rank_insert (k : β → Nat) (x : Nat × β) (l : List (Nat × β))
    (hl : l.Pairwise (rankRel k)) (hx : ∀ y ∈ l, x.1 < y.1) :
    (insertByDesc (fun q => k q.2) x l).Pairwise (rankRel k) := by
  induction l with
  | nil => simp [insertByDesc]
  | cons y ys ih =>
    rw [List.pairwise_cons] at hl
    obtain ⟨hy, hys⟩ := hl
    unfold insertByDesc
    by_cases hlt : k x.2 < k y.2
    · rw [if_pos hlt, List.pairwise_cons]
      refine ⟨?_, ih hys (fun y' hy' => hx y' (List.mem_cons_of_mem y hy'))⟩
      intro z hz
      rcases List.mem_cons.mp ((insertByDesc_perm _ x ys).mem_iff.mp hz) with h1 | h1
      · subst h1
        exact Or.inl hlt
      · exact hy z h1
    · rw [if_neg hlt, List.pairwise_cons]
      refine ⟨?_, List.pairwise_cons.mpr ⟨hy, hys⟩⟩
      intro z hz
      rcases List.mem_cons.mp hz with h1 | h1
      · rw [h1]
        rcases Nat.lt_or_ge (k y.2) (k x.2) with h2 | h2
        · exact Or.inl h2
        · exact Or.inr ⟨by omega, hx y (List.mem_cons_self y ys)⟩
      · rcases hy z h1 with h2 | h2
        · rcases Nat.lt_or_ge (k z.2) (k x.2) with h3 | h3
          · exact Or.inl h3
          · exact Or.inr ⟨by omega, hx z (List.mem_cons_of_mem y h1)⟩
        · rcases Nat.lt_or_ge (k z.2) (k x.2) with h3 | h3
          · exact Or.inl h3
          · exact Or.inr ⟨by omega, hx z (List.mem_cons_of_mem y h1)⟩

theorem pairwise_rank_sort (k : β → Nat) (l : List (Nat × β))
    (h : l.Pairwise (fun a b => a.1 < b.1)) :
    (sortByDesc (fun q => k q.2) l).Pairwise (rankRel k) := by
  induction l with
  | nil => simp [sortByDesc]
  | cons p l ih =>
    rw [List.pairwise_cons] at h
    obtain ⟨hp, hl⟩ := h
    refine pairwise_rank_insert k p (sortByDesc _ l) (ih hl) ?_
    intro y hy
    exact hp y ((sortByDesc_perm _ l).mem_iff.mp hy)

theorem enumIdx_map_snd (i : Nat) (l : List β) :
    (enumIdx i l).map Prod.snd = l := by
  induction l generalizing i with
  | nil => rfl
  | cons x xs ih => simp [enumIdx, ih]

theorem enumIdx_fst_le (i : Nat) (l : List β) :
    ∀ p ∈ enumIdx i l, i ≤ p.1 := by
  induction l generalizing i with
  | nil => intro p hp; cases hp
  | cons x xs ih =>
    intro p hp
    rcases List.mem_cons.mp hp with h1 | h1
    · subst h1
      exact Nat.le_refl i
    · have := ih (i + 1) p h1
      omega

theorem enumIdx_pairwise (i : Nat) (l : List β) :
    (enumIdx i l).Pairwise (fun a b => a.1 < b.1) := by
  induction l generalizing i with
  | nil => simp [enumIdx]
  | cons x xs ih =>
    rw [enumIdx, List.pairwise_cons]
    refine ⟨?_, ih (i + 1)⟩
    intro p hp
    have := enumIdx_fst_le (i + 1) xs p hp
    omega

/-- C8: the leaderboard is the stored balance records sorted by points
descending — ties broken by the records' original positions in the
stored collection — truncated to at most 10 entries.  The third and
fourth conjuncts state the order exactly on the index-tagged records:
the sorted list is a permutation of the tagged input in which any record
precedes another only with strictly more points or with equal points and
an earlier original position. -/
theorem points_rank_spec (ps : List PointRec) :
    (points_rank ps).length ≤ 10
    ∧ points_rank ps
        = ((sortByDesc (fun q => q.2.points) (enumIdx 0 ps)).map Prod.snd).take 10
    ∧ (sortByDesc (fun q => q.2.points) (enumIdx 0 ps)).Perm (enumIdx 0 ps)
    ∧ (sortByDesc (fun q => q.2.points) (enumIdx 0 ps)).Pairwise
        (fun a b => b.2.points < a.2.points
          ∨ (a.2.points = b.2.points ∧ a.1 < b.1))
    ∧ (sortByDesc (fun p => p.points) ps).Pairwise
        (fun a b => b.points ≤ a.points) := by
  refine ⟨?_, ?_, ?_, ?_, ?_⟩
  · simp only [points_rank, List.length_take]
    omega
  · unfold points_rank
    rw [map_snd_sortByDesc, enumIdx_map_snd]
  · exact sortByDesc_perm _ _
  · exact pairwise_rank_sort (fun p => p.points) (enumIdx 0 ps) (enumIdx_pairwise 0 ps)
  · exact pairwise_sortByDesc _ _

/-! ### Claim C9: the claimant/status invariant -/

theorem claimantInv_create (u : User) (c : String) (m d : Nat) (time : String)
    (ts : List Task) (h : claimantInv ts) :
    claimantInv (create_task u c m d time ts).1 := by
  unfold create_task
  by_cases hperm : TASK_PERMISSION_MODE = 1 ∧ u.id ∉ admin_list
  · rw [if_pos hperm]
    exact h
  · rw [if_neg hperm]
    intro t ht
    rcases List.mem_append.mp ht with h1 | h1
    · exact h t h1
    · rw [List.mem_singleton] at h1
      subst h1
      simp

theorem claimantInv_acceptLoop (u : User) (tid : PyStr) (ts : List Task)
    (h : claimantInv ts) : claimantInv (acceptLoop u tid ts).1 := by
  induction ts with
  | nil => exact h
  | cons t ts ih =>
    unfold acceptLoop
    by_cases hm : t.task_id = tid ∧ t.status = "pending"
    · rw [if_pos hm]
      intro t' ht'
      rcases List.mem_cons.mp ht' with h1 | h1
      · rw [h1]
        simp
      · exact h t' (List.mem_cons_of_mem t h1)
    · rw [if_neg hm]
      intro t' ht'
      rcases List.mem_cons.mp ht' with h1 | h1
      · rw [h1]
        exact h t (List.mem_cons_self t ts)
      · exact ih (fun t'' ht'' => h t'' (List.mem_cons_of_mem t ht'')) t' h1

theorem claimantInv_completeLoop (u : User) (tid : PyStr) (ts : List Task)
    (h : claimantInv ts) : claimantInv (completeLoop u tid ts).1 := by
  induction ts with
  | nil => exact h
  | cons t ts ih =>
    unfold completeLoop
    by_cases hm : t.task_id = tid ∧ t.status = "accepted"
    · rw [if_pos hm]
      by_cases hu : t.accepted_by_id ≠ some u.id
      · rw [if_pos hu]
        exact h
      · rw [if_neg hu]
        intro t' ht'
        rcases List.mem_cons.mp ht' with h1 | h1
        · rw [h1]
          have := h t (List.mem_cons_self t ts)
          simp only at this ⊢
          rw [hm.2] at this
          constructor
          · intro hnone
            exact absurd (this.mp hnone) (by decide)
          · intro hfalse
            exact absurd hfalse (by decide)
        · exact h t' (List.mem_cons_of_mem t h1)
    · rw [if_neg hm]
      intro t' ht'
      rcases List.mem_cons.mp ht' with h1 | h1
      · rw [h1]
        exact h t (List.mem_cons_self t ts)
      · exact ih (fun t'' ht'' => h t'' (List.mem_cons_of_mem t ht'')) t' h1

theorem claimantInv_reviewFind (tid : PyStr) (ts : List Task) (f : Task)
    (ts1 : List Task) (h : claimantInv ts)
    (hf : reviewFind tid ts = some (f, ts1)) : claimantInv ts1 := by
  induction ts generalizing ts1 with
  | nil => cases hf
  | cons t ts ih =>
    unfold reviewFind at hf
    by_cases hm : t.task_id = tid ∧ t.status = "pending_review"
    · rw [if_pos hm] at hf
      obtain ⟨hfst, hsnd⟩ := Prod.mk.injEq .. ▸ (Option.some.injEq .. ▸ hf)
      subst hsnd
      intro t' ht'
      rcases List.mem_cons.mp ht' with h1 | h1
      · rw [h1]
        have := h t (List.mem_cons_self t ts)
        simp only at this ⊢
        rw [hm.2] at this
        constructor
        · intro hnone
          exact absurd (this.mp hnone) (by decide)
        · intro hfalse
          exact absurd hfalse (by decide)
      · exact h t' (List.mem_cons_of_mem t h1)
    · rw [if_neg hm] at hf
      cases hrec : reviewFind tid ts with
      | none =>
        rw [hrec] at hf
        cases hf
      | some pr =>
        rw [hrec] at hf
        obtain ⟨f', ts'⟩ := pr
        simp only [Option.some.injEq, Prod.mk.injEq] at hf
        obtain ⟨hf1, hf2⟩ := hf
        subst hf1
        subst hf2
        intro t' ht'
        rcases List.mem_cons.mp ht' with h1 | h1
        · rw [h1]
          exact h t (List.mem_cons_self t ts)
        · exact ih ts' (fun t'' ht'' => h t'' (List.mem_cons_of_mem t ht'')) hrec t' h1

theorem claimantInv_applyOp (s : SysState) (op : Op)
    (h : claimantInv s.tasks) : claimantInv (applyOp s op).tasks := by
  cases op with
  | createOp u c m d time => exact claimantInv_create u c m d time s.tasks h
  | claimOp u tid =>
    unfold applyOp accept_task
    by_cases hv : validate_task_id tid = true
    · simp only [hv, if_true]
      exact claimantInv_acceptLoop u tid s.tasks h
    · simp only [hv]
      simp only [Bool.false_eq_true, if_false]
      exact h
  | submitOp u tid =>
    unfold applyOp user_complete
    by_cases hv : validate_task_id tid = true
    · simp only [hv, if_true]
      exact claimantInv_completeLoop u tid s.tasks h
    · simp only [hv]
      simp only [Bool.false_eq_true, if_false]
      exact h
  | reviewOp u tid =>
    unfold applyOp review_task
    by_cases hv : validate_task_id tid = true
    · by_cases hadmin : u.id ∈ admin_list
      · simp only [hv, if_true, hadmin]
        cases hfind : reviewFind tid s.tasks with
        | none => exact h
        | some pr =>
          obtain ⟨f, ts1⟩ := pr
          simp only
          exact claimantInv_reviewFind tid s.tasks f ts1 h hfind
      · simp only [hv, if_true, hadmin, if_false]
        exact h
    · simp only [hv, Bool.false_eq_true, if_false]
      exact h

theorem claimantInv_foldl (ops : List Op) (s : SysState)
    (h : claimantInv s.tasks) :
    claimantInv (List.foldl applyOp s ops).tasks := by
  induction ops generalizing s with
  | nil => exact h
  | cons op ops ih =>
    rw [List.foldl_cons]
    exact ih (applyOp s op) (claimantInv_applyOp s op h)

/-- C9: in every store reachable from the empty store by any sequence of
Create, Claim, Submit and Review commands, a task's `accepted_by_id` is
null exactly when its status is `pending`: Create establishes the
invariant on the new record, Claim sets the claimant while leaving
`pending`, and Submit and Review move the status further while the
claimant stays set. -/
theorem runOps_claimantInv (ops : List Op) : claimantInv (runOps ops).tasks :=
  claimantInv_foldl ops { tasks := [], points := [] }
    (fun t ht => absurd ht (List.not_mem_nil t))

end TaskSys
